import Mathlib

/-!
Verification development for the spatial-query core of the Browse3D Model
class (Code/Source/Tools/Browse3D/Model.cpp).

The Model class orchestrates two kd-tree indices (a face kd-tree and a
vertex kd-tree) with lazy rebuilding, an affine-transform overlay, and
query entry points (rayIntersects, rayIntersectionTime, rayIntersection,
closestPoint, pick).  Model.cpp is embedded from source.  The kd-tree
query engine itself (Algorithms/KDTreeN.hpp, MetricL2, RayIntersectionTester)
is not part of the analysed sources, so its observable behaviour is
modelled from the specification: closestElement returns the element
nearest the query within a distance bound (a negative bound meaning
unbounded, ties resolved to the element earliest in traversal order),
ray queries return the globally minimum admissible hit time, and
closestPair returns the element nearest a ray.

Geometry is embedded with integer coordinates (a discrete, exactly
computable stand-in for the floating-point Real scalar); the L2 metric
is carried as squared distance, exact over ℤ and order-isomorphic to
true distance.
Elements indexed by a kd-tree are kept generic, mirroring the C++
template parameters: an ElemOps bundle supplies the per-primitive
capabilities (metric distance, ray-hit time, ray proximity data, normal),
exactly as the specification's "Primitive Adapter" capability surface.
-/

namespace Browse3D

/-- A 3D point with integer coordinates (embedding of Vector3). -/
structure Pt where
  x : ℤ
  y : ℤ
  z : ℤ
deriving DecidableEq

/-- Squared L2 distance between two points (MetricL2 carried as squared
distance, exact over ℤ and order-isomorphic to distance). -/
def sqDist (p q : Pt) : ℤ :=
  (p.x - q.x) * (p.x - q.x) + (p.y - q.y) * (p.y - q.y) + (p.z - q.z) * (p.z - q.z)

theorem sqDist_nonneg (p q : Pt) : 0 ≤ sqDist p q := by
  unfold sqDist
  have h1 := mul_self_nonneg (p.x - q.x)
  have h2 := mul_self_nonneg (p.y - q.y)
  have h3 := mul_self_nonneg (p.z - q.z)
  linarith

/-- A ray: origin and (unnormalised) direction (embedding of Ray3). -/
structure Ray where
  origin : Pt
  dir : Pt
deriving DecidableEq

/-- The point at parameter t along a ray (Ray3::getPoint). -/
def Ray.getPoint (r : Ray) (t : ℤ) : Pt :=
  ⟨r.origin.x + t * r.dir.x, r.origin.y + t * r.dir.y, r.origin.z + t * r.dir.z⟩

/-- Dot product of the displacement from a to b with a direction d; used to
model the projection of a point onto a ray.  The C++ code normalises the
ray direction first; normalisation only rescales by the positive factor
1/|d|, so the sign of the projection (all the Model code tests) is the
same. -/
def projAlong (a b d : Pt) : ℤ :=
  (b.x - a.x) * d.x + (b.y - a.y) * d.y + (b.z - a.z) * d.z

/-- An affine transform, stored but never applied by the embedded queries
(AffineTransform3: a 3x3 linear part and a translation). -/
structure AffineTransform where
  l00 : ℤ
  l01 : ℤ
  l02 : ℤ
  l10 : ℤ
  l11 : ℤ
  l12 : ℤ
  l20 : ℤ
  l21 : ℤ
  l22 : ℤ
  tx : ℤ
  ty : ℤ
  tz : ℤ
deriving DecidableEq

/-! ### Generic first-minimum scan

The spec-modelled kd-tree queries all reduce to: among the values
admitted by a predicate, return the minimum together with the first
index attaining it, or none when no value is admissible. -/

/-- Minimum of a list of scalars, none for the empty list. -/
def listMinQ : List ℤ → Option ℤ
  | [] => none
  | x :: xs =>
    match listMinQ xs with
    | none => some x
    | some m => some (min x m)

theorem listMinQ_eq_none {xs : List ℤ} (h : listMinQ xs = none) : xs = [] := by
  cases xs with
  | nil => rfl
  | cons x xs =>
    simp only [listMinQ] at h
    cases hxs : listMinQ xs <;> rw [hxs] at h <;> simp at h

theorem listMinQ_mem {xs : List ℤ} {m : ℤ} (h : listMinQ xs = some m) : m ∈ xs := by
  induction xs generalizing m with
  | nil => simp [listMinQ] at h
  | cons x xs ih =>
    simp only [listMinQ] at h
    cases hxs : listMinQ xs with
    | none =>
      rw [hxs] at h
      simp at h
      simp [h]
    | some m2 =>
      rw [hxs] at h
      simp at h
      subst h
      rcases le_total x m2 with hx | hx
      · rw [min_eq_left hx]
        exact List.mem_cons_self _ _
      · rw [min_eq_right hx]
        exact List.mem_cons_of_mem _ (ih hxs)

theorem listMinQ_le {xs : List ℤ} {m : ℤ} (h : listMinQ xs = some m) :
    ∀ x ∈ xs, m ≤ x := by
  induction xs generalizing m with
  | nil => simp
  | cons x xs ih =>
    simp only [listMinQ] at h
    cases hxs : listMinQ xs with
    | none =>
      rw [hxs] at h
      simp at h
      have hnil : xs = [] := listMinQ_eq_none hxs
      subst hnil
      intro y hy
      rcases List.mem_cons.mp hy with hy | hy
      · exact le_of_eq (h ▸ hy ▸ rfl)
      · simp at hy
    | some m2 =>
      rw [hxs] at h
      simp at h
      intro y hy
      rcases List.mem_cons.mp hy with hy | hy
      · rw [← h, hy]
        exact min_le_left _ _
      · calc m ≤ m2 := by rw [← h]; exact min_le_right _ _
          _ ≤ y := ih hxs y hy

/-- Index of the first occurrence of m in a list of scalars. -/
def firstIdxEq : List ℤ → ℤ → ℕ
  | [], _ => 0
  | x :: xs, m => if x = m then 0 else firstIdxEq xs m + 1

theorem firstIdxEq_get? {xs : List ℤ} {m : ℤ} (h : m ∈ xs) :
    xs.get? (firstIdxEq xs m) = some m := by
  induction xs with
  | nil => simp at h
  | cons x xs ih =>
    by_cases hx : x = m
    · simp [firstIdxEq, hx]
    · have hm : m ∈ xs := by
        rcases List.mem_cons.mp h with h1 | h1
        · exact absurd h1.symm hx
        · exact h1
      show (x :: xs).get? (firstIdxEq (x :: xs) m) = some m
      rw [firstIdxEq, if_neg hx]
      exact ih hm

theorem firstIdxEq_min {xs : List ℤ} {m : ℤ} :
    ∀ j < firstIdxEq xs m, xs.get? j ≠ some m := by
  induction xs with
  | nil => simp [firstIdxEq]
  | cons x xs ih =>
    intro j hj
    by_cases hx : x = m
    · simp [firstIdxEq, hx] at hj
    · simp only [firstIdxEq, if_neg hx] at hj
      cases j with
      | zero =>
        simp only [List.get?]
        intro hc
        exact hx (Option.some.injEq _ _ ▸ hc)
      | succ j =>
        simp only [List.get?]
        exact ih j (Nat.lt_of_succ_lt_succ hj)

/-- First-minimum scan: among the values of ds admitted by p, the minimum
value together with the first index attaining it; none when no value is
admitted.  All spec-modelled kd-tree queries reduce to this shape. -/
def firstMinBy (ds : List ℤ) (p : ℤ → Bool) : Option (ℕ × ℤ) :=
  match listMinQ (ds.filter p) with
  | none => none
  | some m => some (firstIdxEq ds m, m)

/-- Characterisation of a first-minimum result. -/
def IsFirstMin (ds : List ℤ) (p : ℤ → Bool) : Option (ℕ × ℤ) → Prop
  | none => ∀ x ∈ ds, p x = false
  | some (i, m) =>
    ds.get? i = some m ∧ p m = true ∧ (∀ x ∈ ds, p x = true → m ≤ x) ∧
      ∀ j < i, ds.get? j ≠ some m

theorem firstMinBy_spec (ds : List ℤ) (p : ℤ → Bool) :
    IsFirstMin ds p (firstMinBy ds p) := by
  unfold firstMinBy
  cases hmin : listMinQ (ds.filter p) with
  | none =>
    have hnil : ds.filter p = [] := listMinQ_eq_none hmin
    intro x hx
    by_contra hpx
    have hpx2 : p x = true := by
      cases hpx3 : p x with
      | false => exact absurd hpx3 hpx
      | true => rfl
    have : x ∈ ds.filter p := List.mem_filter.mpr ⟨hx, hpx2⟩
    rw [hnil] at this
    simp at this
  | some m =>
    have hmem : m ∈ ds.filter p := listMinQ_mem hmin
    have hmds : m ∈ ds := (List.mem_filter.mp hmem).1
    have hpm : p m = true := (List.mem_filter.mp hmem).2
    refine ⟨firstIdxEq_get? hmds, hpm, ?_, fun j hj => firstIdxEq_min j hj⟩
    intro x hx hpx
    exact listMinQ_le hmin x (List.mem_filter.mpr ⟨hx, hpx⟩)

theorem isFirstMin_unique {ds : List ℤ} {p : ℤ → Bool} {o1 o2 : Option (ℕ × ℤ)}
    (h1 : IsFirstMin ds p o1) (h2 : IsFirstMin ds p o2) : o1 = o2 := by
  cases o1 with
  | none =>
    cases o2 with
    | none => rfl
    | some im =>
      obtain ⟨i, m⟩ := im
      obtain ⟨hget, hp, _, _⟩ := h2
      have hmem : m ∈ ds := List.get?_mem hget
      have := h1 m hmem
      rw [hp] at this
      exact absurd this (by simp)
  | some im =>
    obtain ⟨i, m⟩ := im
    cases o2 with
    | none =>
      obtain ⟨hget, hp, _, _⟩ := h1
      have hmem : m ∈ ds := List.get?_mem hget
      have := h2 m hmem
      rw [hp] at this
      exact absurd this (by simp)
    | some im2 =>
      obtain ⟨i2, m2⟩ := im2
      obtain ⟨hget1, hp1, hle1, hfirst1⟩ := h1
      obtain ⟨hget2, hp2, hle2, hfirst2⟩ := h2
      have hm1 : m ≤ m2 := hle1 m2 (List.get?_mem hget2) hp2
      have hm2 : m2 ≤ m := hle2 m (List.get?_mem hget1) hp1
      have hm : m = m2 := le_antisymm hm1 hm2
      subst hm
      rcases Nat.lt_trichotomy i i2 with hlt | heq | hgt
      · exact absurd hget1 (hfirst2 i hlt)
      · rw [heq]
      · exact absurd hget2 (hfirst1 i2 hgt)

/-! ### Bound conventions

Thea-style distance and time bounds: a negative bound means "unbounded"
(closestPair is invoked with -1 in Model::pick); otherwise the bound is
inclusive ("within the bound"). -/

/-- d is within the distance bound (negative bound = no bound). -/
def withinBound (bound d : ℤ) : Bool :=
  bound < 0 || d ≤ bound

/-- t is an admissible ray-hit time: non-negative and within max_time
(negative max_time = no bound). -/
def hitAdmissible (maxTime t : ℤ) : Bool :=
  (0 ≤ t) && (maxTime < 0 || t ≤ maxTime)

theorem withinBound_mono {bound x y : ℤ} (hxy : x ≤ y)
    (hy : withinBound bound y = true) : withinBound bound x = true := by
  unfold withinBound at hy ⊢
  rcases Bool.or_eq_true_iff.mp hy with hb | hb
  · exact Bool.or_eq_true_iff.mpr (Or.inl hb)
  · exact Bool.or_eq_true_iff.mpr (Or.inr (decide_eq_true (le_trans hxy (of_decide_eq_true hb))))

/-! ### Brute-force linear scan (the reference algorithm of the spec)

"an unaccelerated brute-force linear scan over all primitives": walk the
list once, keeping the best (index, distance) seen so far among the
values within the bound, earlier elements winning ties. -/

/-- One-pass scan keeping the first best admissible value. -/
def bfScan (p : ℤ → Bool) : List ℤ → ℕ → Option (ℕ × ℤ) → Option (ℕ × ℤ)
  | [], _, best => best
  | x :: rest, i, best =>
    let keep : Bool :=
      p x && (match best with
              | none => true
              | some pr => decide (x < pr.2))
    bfScan p rest (i + 1) (if keep then some (i, x) else best)

/-- Modelled from the spec: brute-force linear scan over all primitives,
returning the index of the closest one within the distance bound and its
distance, or none. -/
def bruteForceClosest {α : Type} (d : α → Pt → ℤ) (elems : List α) (q : Pt)
    (bound : ℤ) : Option (ℕ × ℤ) :=
  bfScan (withinBound bound) (elems.map fun e => d e q) 0 none

theorem bfScan_spec (p : ℤ → Bool) :
    ∀ (rest pre : List ℤ) (best : Option (ℕ × ℤ)),
      IsFirstMin pre p best → IsFirstMin (pre ++ rest) p (bfScan p rest pre.length best) := by
  intro rest
  induction rest with
  | nil =>
    intro pre best h
    simpa [bfScan] using h
  | cons x rest ih =>
    intro pre best h
    have hsplit : pre ++ x :: rest = (pre ++ [x]) ++ rest := by simp
    have hlen : pre.length + 1 = (pre ++ [x]).length := by simp
    cases best with
    | none =>
      by_cases hpx : p x = true
      · have hstep : IsFirstMin (pre ++ [x]) p (some (pre.length, x)) := by
          refine ⟨by simp, hpx, ?_, ?_⟩
          · intro y hy hpy
            rcases List.mem_append.mp hy with hy | hy
            · exact absurd hpy (by simp [h y hy])
            · simp at hy
              exact le_of_eq hy.symm
          · intro j hj hc
            have hjlt : j < pre.length := hj
            rw [List.get?_append hjlt] at hc
            have hxpre : x ∈ pre := List.get?_mem hc
            exact absurd hpx (by simp [h x hxpre])
        have hrec := ih (pre ++ [x]) (some (pre.length, x)) hstep
        rw [← hlen] at hrec
        rw [hsplit]
        simpa [bfScan, hpx] using hrec
      · have hstep : IsFirstMin (pre ++ [x]) p none := by
          intro y hy
          rcases List.mem_append.mp hy with hy | hy
          · exact h y hy
          · simp at hy
            subst hy
            cases hpy : p y with
            | false => rfl
            | true => exact absurd hpy hpx
        have hrec := ih (pre ++ [x]) none hstep
        rw [← hlen] at hrec
        rw [hsplit]
        simpa [bfScan, hpx] using hrec
    | some pr =>
      obtain ⟨j, m⟩ := pr
      obtain ⟨hget, hpm, hle, hfirst⟩ := h
      have hjlt : j < pre.length := by
        by_contra hge
        rw [List.get?_eq_none.mpr (le_of_not_lt hge)] at hget
        exact Option.noConfusion hget
      by_cases hkeep : (p x && decide (x < m)) = true
      · have hpx : p x = true := (Bool.and_eq_true_iff.mp hkeep).1
        have hxm : x < m := of_decide_eq_true (Bool.and_eq_true_iff.mp hkeep).2
        have hstep : IsFirstMin (pre ++ [x]) p (some (pre.length, x)) := by
          refine ⟨by simp, hpx, ?_, ?_⟩
          · intro y hy hpy
            rcases List.mem_append.mp hy with hy | hy
            · exact le_trans (le_of_lt hxm) (hle y hy hpy)
            · simp at hy
              exact le_of_eq hy.symm
          · intro k hk hc
            have hklt : k < pre.length := hk
            rw [List.get?_append hklt] at hc
            have hmem : x ∈ pre := List.get?_mem hc
            exact absurd (hle x hmem hpx) (not_le_of_lt hxm)
        have hrec := ih (pre ++ [x]) (some (pre.length, x)) hstep
        rw [← hlen] at hrec
        rw [hsplit]
        simpa [bfScan, hpx, hxm] using hrec
      · have hstep : IsFirstMin (pre ++ [x]) p (some (j, m)) := by
          refine ⟨by rw [List.get?_append hjlt]; exact hget, hpm, ?_, ?_⟩
          · intro y hy hpy
            rcases List.mem_append.mp hy with hy | hy
            · exact hle y hy hpy
            · simp at hy
              subst hy
              by_cases hpx : p y = true
              · have hnlt : ¬ y < m := by
                  intro hlt
                  exact hkeep (by simp [hpx, hlt])
                exact le_of_not_lt hnlt
              · exact absurd hpy hpx
          · intro k hk hc
            have hklt : k < pre.length := lt_trans hk hjlt
            rw [List.get?_append hklt] at hc
            exact hfirst k hk hc
        have hrec := ih (pre ++ [x]) (some (j, m)) hstep
        rw [← hlen] at hrec
        rw [hsplit]
        have hcond : (p x && decide (x < m)) = false := by
          cases hc : (p x && decide (x < m)) with
          | false => rfl
          | true => exact absurd hc hkeep
        simpa [bfScan, hcond] using hrec

theorem bruteForceClosest_spec {α : Type} (d : α → Pt → ℤ) (elems : List α)
    (q : Pt) (bound : ℤ) :
    IsFirstMin (elems.map fun e => d e q) (withinBound bound)
      (bruteForceClosest d elems q bound) := by
  have h := bfScan_spec (withinBound bound) (elems.map fun e => d e q) [] none
  simpa [bruteForceClosest] using h (by intro x hx; simp at hx)

/-! ### Spec-modelled kd-tree query engine (Algorithms/KDTreeN.hpp)

The kd-tree implementation is not among the analysed sources; only its
callers in Model.cpp are.  Its observable behaviour is modelled from the
specification (§4.3): nearest element within the bound with deterministic
first-in-traversal-order tie-break, globally minimum admissible ray hit
time, and nearest element to a ray with an onlyIfNoHit short-circuit.
Elements stay generic (the C++ code is a template); a per-element
capability bundle mirrors the Primitive Adapter of the spec. -/

/-- Capability surface of an indexed primitive: MetricL2 squared distance
to a point, outward normal, ray-hit time (negative = miss), and the
closest-pair data against a ray (closest point on the ray, closest point
on the element, their squared distance). -/
structure ElemOps (α : Type) where
  dist : α → Pt → ℤ
  normal : α → Pt
  hitTime : α → Ray → ℤ
  cpRayPoint : α → Ray → Pt
  cpElemPoint : α → Ray → Pt
  cpDist : α → Ray → ℤ

namespace KDTreeN

/-- Modelled from the spec: KDTreeN::closestElement — the element nearest
the query under the supplied metric, no farther than the distance bound
(negative bound = unbounded), ties to the element earliest in traversal
order; returns the element index and its distance, or none. -/
def closestElement {α : Type} (d : α → Pt → ℤ) (elems : List α) (query : Pt)
    (bound : ℤ) : Option (ℕ × ℤ) :=
  firstMinBy (elems.map fun e => d e query) (withinBound bound)

/-- Modelled from the spec: KDTreeN::rayStructureIntersection — the
globally minimum hit time in [0, max_time] (negative max_time =
unbounded) over all elements, with the index of the first element
attaining it, or none when no element intersects. -/
def rayStructureIntersection {α : Type} (hit : α → Ray → ℤ) (elems : List α)
    (ray : Ray) (maxTime : ℤ) : Option (ℕ × ℤ) :=
  firstMinBy (elems.map fun e => hit e ray) (hitAdmissible maxTime)

/-- Modelled from the spec: KDTreeN::rayIntersects — whether any element
is hit within [0, max_time] (short-circuits on the first hit found). -/
def rayIntersects {α : Type} (hit : α → Ray → ℤ) (elems : List α) (ray : Ray)
    (maxTime : ℤ) : Bool :=
  elems.any fun e => hitAdmissible maxTime (hit e ray)

/-- Modelled from the spec: KDTreeN::rayIntersectionTime — the minimum
hit time, or a negative value when no element is hit. -/
def rayIntersectionTime {α : Type} (hit : α → Ray → ℤ) (elems : List α)
    (ray : Ray) (maxTime : ℤ) : ℤ :=
  match rayStructureIntersection hit elems ray maxTime with
  | some (_, t) => t
  | none => -1

/-- A closest-pair result (KDTreeN::NeighborPair): the closest point on
the query ray, the closest point on the target element, the target index
and the distance. -/
structure NeighborPair where
  index : ℕ
  queryPoint : Pt
  targetPoint : Pt
  dist : ℤ
deriving DecidableEq

/-- Modelled from the spec: KDTreeN::closestPair against a ray — the
element minimising point-to-ray distance within the bound (negative =
unbounded); with onlyIfNoHit set it short-circuits to an invalid result
when an exact ray hit exists. -/
def closestPair {α : Type} (ops : ElemOps α) (elems : List α) (ray : Ray)
    (maxDist : ℤ) (onlyIfNoHit : Bool) : Option NeighborPair :=
  if onlyIfNoHit && (elems.any fun e => 0 ≤ ops.hitTime e ray) then none
  else
    match firstMinBy (elems.map fun e => ops.cpDist e ray) (withinBound maxDist) with
    | none => none
    | some (i, m) =>
      match elems.get? i with
      | some e => some ⟨i, ops.cpRayPoint e ray, ops.cpElemPoint e ray, m⟩
      | none => none

end KDTreeN

/-- Shrinking an inclusive distance bound from B to dv does not change a
first-minimum result, provided dv itself is within B and some value of
the list is at most dv (the two-tier tightening argument: the anchor
distance dv dominates some primitive distance, so the minimum survives). -/
theorem isFirstMin_tighten {ds : List ℤ} {B dv : ℤ} {o : Option (ℕ × ℤ)}
    (hspec : IsFirstMin ds (withinBound B) o)
    (hdvB : withinBound B dv = true) (hdv0 : 0 ≤ dv)
    (hwit : ∃ x ∈ ds, x ≤ dv) :
    IsFirstMin ds (withinBound dv) o := by
  obtain ⟨w, hwmem, hwle⟩ := hwit
  have hwB : withinBound B w = true := withinBound_mono hwle hdvB
  cases o with
  | none => exact absurd (hspec w hwmem) (by simp [hwB])
  | some im =>
    obtain ⟨i, m⟩ := im
    obtain ⟨hget, hpm, hle, hfirst⟩ := hspec
    have hmw : m ≤ w := hle w hwmem hwB
    have hmdv : m ≤ dv := le_trans hmw hwle
    refine ⟨hget, by simp [withinBound, hmdv], ?_, hfirst⟩
    intro y hy hpy
    have hydv : y ≤ dv := by
      rcases Bool.or_eq_true_iff.mp hpy with hb | hb
      · exact absurd hdv0 (not_le_of_lt (of_decide_eq_true hb))
      · exact of_decide_eq_true hb
    exact hle y hy (withinBound_mono hydv hdvB)

/-! ### The Browse3D Model (embedded from Model.cpp) -/

/-- The geometry reachable from a MeshGroup, as the two kd-trees consume
it: the faces that kdtree->add(*mesh_group) indexes, and the vertices
that CollectVerticesFunctor gathers for the vertex kd-tree. -/
structure MeshGroupData (α : Type) where
  faces : List α
  verts : List Pt
deriving DecidableEq

/-- MeshGroup::isEmpty: no geometry at all. -/
def MeshGroupData.isEmpty {α : Type} (mg : MeshGroupData α) : Bool :=
  mg.faces.isEmpty && mg.verts.isEmpty

/-- A point cloud (PointCloud), as far as Model queries observe it. -/
structure PointCloudData where
  pts : List Pt
deriving DecidableEq

/-- PointCloud::isEmpty. -/
def PointCloudData.isEmpty (pc : PointCloudData) : Bool :=
  pc.pts.isEmpty

/-- Observable state of one kd-tree index instance: the element sequence
it was built from and the affine transform stored on it (KDTreeN also
stores the tree hierarchy; its node structure is not observable through
any Model query, so the element sequence stands for the built
hierarchy).  clear(false) discards the elements and keeps the transform
(the spec separates the transform overlay from the hierarchy: setting or
clearing a transform never touches the hierarchy, and clearing the
hierarchy resets it to empty, saying nothing about the transform). -/
structure KDTreeState (α : Type) where
  elems : List α
  trans : Option AffineTransform
deriving DecidableEq

/-- State of a Browse3D::Model: optional mesh group and point cloud, the
transform stored by TransformableBaseT, the two lazily rebuilt kd-trees
with their validity flags, and the pick record. -/
structure Model (α : Type) where
  mesh_group : Option (MeshGroupData α)
  point_cloud : Option PointCloudData
  transform : Option AffineTransform
  valid_kdtree : Bool
  kdtree : KDTreeState α
  valid_vertex_kdtree : Bool
  vertex_kdtree : KDTreeState Pt
  valid_pick : Bool
  picked_sample : Pt
  picked_face : Int
deriving DecidableEq

namespace Model

variable {α : Type}

/-- Model::hasTransform (TransformableBaseT). -/
def hasTransform (s : Model α) : Bool :=
  s.transform.isSome

/-- Model::isEmpty (Model.cpp lines 122-126). -/
def isEmpty (s : Model α) : Bool :=
  (match s.mesh_group with
   | none => true
   | some mg => mg.isEmpty) &&
  (match s.point_cloud with
   | none => true
   | some pc => pc.isEmpty)

/-- Model::setTransform (Model.cpp lines 234-244): store the transform,
and forward it to each kd-tree whose validity flag is set. -/
def setTransform (s : Model α) (t : AffineTransform) : Model α :=
  let s1 : Model α := { s with transform := some t }
  let s2 : Model α :=
    if s1.valid_kdtree then { s1 with kdtree := { s1.kdtree with trans := some t } } else s1
  if s2.valid_vertex_kdtree then
    { s2 with vertex_kdtree := { s2.vertex_kdtree with trans := some t } }
  else s2

/-- Model::clearTransform (Model.cpp lines 246-256): drop the transform,
and forward the clear to each kd-tree whose validity flag is set. -/
def clearTransform (s : Model α) : Model α :=
  let s1 : Model α := { s with transform := none }
  let s2 : Model α :=
    if s1.valid_kdtree then { s1 with kdtree := { s1.kdtree with trans := none } } else s1
  if s2.valid_vertex_kdtree then
    { s2 with vertex_kdtree := { s2.vertex_kdtree with trans := none } }
  else s2

/-- Model::invalidateKDTree (Model.cpp lines 265-269). -/
def invalidateKDTree (s : Model α) : Model α :=
  { s with valid_kdtree := false }

/-- Model::invalidateVertexKDTree (Model.cpp lines 292-296). -/
def invalidateVertexKDTree (s : Model α) : Model α :=
  { s with valid_vertex_kdtree := false }

/-- Model::invalidateAll (Model.cpp lines 258-263). -/
def invalidateAll (s : Model α) : Model α :=
  invalidateKDTree (invalidateVertexKDTree s)

/-- Model::updateKDTree (Model.cpp lines 271-290): return unchanged when
the flag is set; otherwise clear the tree, re-add the mesh group's faces
when a mesh group exists (applying the model's transform when one is
set), and mark the tree valid. -/
def updateKDTree (s : Model α) : Model α :=
  if s.valid_kdtree then s
  else
    let kd0 : KDTreeState α := { s.kdtree with elems := [] }
    let kd1 : KDTreeState α :=
      match s.mesh_group with
      | some mg =>
        let kd : KDTreeState α := { kd0 with elems := mg.faces }
        match s.transform with
        | some t => { kd with trans := some t }
        | none => kd
      | none => kd0
    { s with kdtree := kd1, valid_kdtree := true }

/-- Model::updateVertexKDTree (Model.cpp lines 318-333): return unchanged
when the flag is set; otherwise clear the tree and collect the vertices
by dereferencing mesh_group with no null check — a null mesh_group is
undefined behaviour, modelled as none. -/
def updateVertexKDTree (s : Model α) : Option (Model α) :=
  if s.valid_vertex_kdtree then some s
  else
    let kd0 : KDTreeState Pt := { s.vertex_kdtree with elems := [] }
    match s.mesh_group with
    | none => none
    | some mg =>
      let kd1 : KDTreeState Pt := { kd0 with elems := mg.verts }
      let kd2 : KDTreeState Pt :=
        match s.transform with
        | some t => { kd1 with trans := some t }
        | none => kd1
      some { s with vertex_kdtree := kd2, valid_vertex_kdtree := true }

/-- Model::rayIntersects (Model.cpp lines 353-357): getKDTree() rebuilds
a stale tree, then the kd-tree answers. -/
def rayIntersects (ops : ElemOps α) (s : Model α) (ray : Ray) (maxTime : ℤ) :
    Bool × Model α :=
  let s1 := updateKDTree s
  (KDTreeN.rayIntersects ops.hitTime s1.kdtree.elems ray maxTime, s1)

/-- Model::rayIntersectionTime (Model.cpp lines 359-363). -/
def rayIntersectionTime (ops : ElemOps α) (s : Model α) (ray : Ray) (maxTime : ℤ) :
    ℤ × Model α :=
  let s1 := updateKDTree s
  (KDTreeN.rayIntersectionTime ops.hitTime s1.kdtree.elems ray maxTime, s1)

/-- Model::rayIntersection (Model.cpp lines 365-369): the full structure
intersection record, some (element index, hit time) when valid. -/
def rayIntersection (ops : ElemOps α) (s : Model α) (ray : Ray) (maxTime : ℤ) :
    Option (ℕ × ℤ) × Model α :=
  let s1 := updateKDTree s
  (KDTreeN.rayStructureIntersection ops.hitTime s1.kdtree.elems ray maxTime, s1)

/-- Result of Model::closestPoint: the returned index (-1 for none) and
the two output parameters, none when left unwritten. -/
structure ClosestPointResult (α : Type) where
  ret : Int
  min_dist : Option ℤ
  closest_pt_normal : Option Pt
  state : Model α
deriving DecidableEq

/-- Model::closestPoint (Model.cpp lines 371-401): when the model is
non-empty, optionally tighten the distance bound with a vertex kd-tree
query (rebuilding that tree first — updateVertexKDTree dereferences a
null mesh_group, propagated here as none), then query the face kd-tree
after rebuilding it; on a hit report index, distance and element normal,
otherwise return -1 with the outputs unwritten. -/
def closestPoint (ops : ElemOps α) (s : Model α) (query : Pt)
    (distance_bound : ℤ) (accelerate_with_vertices : Bool) :
    Option (ClosestPointResult α) :=
  if isEmpty s then some ⟨-1, none, none, s⟩
  else
    let step1 : Option (Model α × ℤ) :=
      if accelerate_with_vertices then
        match updateVertexKDTree s with
        | none => none
        | some s1 =>
          match KDTreeN.closestElement sqDist s1.vertex_kdtree.elems query distance_bound with
          | some (_, fast_distance_bound) => some (s1, fast_distance_bound)
          | none => some (s1, distance_bound)
      else some (s, distance_bound)
    match step1 with
    | none => none
    | some (s1, bound1) =>
      let s2 := updateKDTree s1
      match KDTreeN.closestElement ops.dist s2.kdtree.elems query bound1 with
      | some (index, d) =>
        match s2.kdtree.elems.get? index with
        | some e => some ⟨Int.ofNat index, some d, some (ops.normal e), s2⟩
        | none => some ⟨Int.ofNat index, some d, none, s2⟩
      | none => some ⟨-1, none, none, s2⟩

/-- Result of Model::pick: the returned time, whether the closest-pair
fallback was consulted, and the post state. -/
structure PickResult (α : Type) where
  t : ℤ
  consulted_closest_pair : Bool
  state : Model α
deriving DecidableEq

/-- Model::pick (Model.cpp lines 403-441): try the exact ray
intersection (which rebuilds the face kd-tree); on a valid hit record it
directly; otherwise fall back to the kd-tree's closestPair with an
unbounded radius and onlyIfNoHit set, accepting the pair only when the
projection of its ray point onto the ray is non-negative.  When an
element was found, record the pick and set valid_pick. -/
def pick (ops : ElemOps α) (s : Model α) (ray : Ray) : PickResult α :=
  let s1 := updateKDTree s
  match KDTreeN.rayStructureIntersection ops.hitTime s1.kdtree.elems ray (-1) with
  | some (index, time) =>
    ⟨time, false,
     { s1 with picked_sample := ray.getPoint time, picked_face := Int.ofNat index,
               valid_pick := true }⟩
  | none =>
    match KDTreeN.closestPair ops s1.kdtree.elems ray (-1) true with
    | some cp =>
      let t := projAlong ray.origin cp.queryPoint ray.dir
      if 0 ≤ t then
        ⟨t, true,
         { s1 with picked_sample := cp.targetPoint, picked_face := Int.ofNat cp.index,
                   valid_pick := true }⟩
      else ⟨t, true, s1⟩
    | none => ⟨-1, true, s1⟩

/-- Model::invalidatePick (Model.cpp lines 443-448). -/
def invalidatePick (s : Model α) : Model α :=
  { s with valid_pick := false }

/-- The primitives the face kd-tree indexes for the current geometry:
the mesh group's faces, or nothing without a mesh group. -/
def modelFaces (s : Model α) : List α :=
  match s.mesh_group with
  | some mg => mg.faces
  | none => []

/-- A valid face kd-tree was built from the current geometry and carries
the current transform; likewise for the vertex kd-tree.  Every query
relies on this sync between flag and tree contents. -/
def kdtreeSynced (s : Model α) : Prop :=
  s.valid_kdtree = true → s.kdtree.elems = modelFaces s

/-- Vertex kd-tree counterpart of kdtreeSynced. -/
def vertexKdtreeSynced (s : Model α) : Prop :=
  s.valid_vertex_kdtree = true →
    s.vertex_kdtree.elems = (match s.mesh_group with
                             | some mg => mg.verts
                             | none => [])

/-- The transform invariant of claim C9: whenever a kd-tree's validity
flag is set, the transform stored in that kd-tree equals the model's
current transform. -/
def transformsSynced (s : Model α) : Prop :=
  (s.valid_kdtree = true → s.kdtree.trans = s.transform) ∧
    (s.valid_vertex_kdtree = true → s.vertex_kdtree.trans = s.transform)

instance (s : Model α) : Decidable (transformsSynced s) := by
  unfold transformsSynced
  infer_instance

instance {β : Type} [DecidableEq β] (s : Model β) : Decidable (kdtreeSynced s) := by
  unfold kdtreeSynced
  infer_instance

instance (s : Model α) : Decidable (vertexKdtreeSynced s) := by
  unfold vertexKdtreeSynced
  infer_instance

theorem updateKDTree_valid (s : Model α) : (updateKDTree s).valid_kdtree = true := by
  unfold updateKDTree
  by_cases h : s.valid_kdtree = true
  · rw [if_pos h]
    exact h
  · rw [if_neg h]

theorem updateKDTree_of_valid {s : Model α} (h : s.valid_kdtree = true) :
    updateKDTree s = s := by
  unfold updateKDTree
  rw [if_pos h]

theorem updateKDTree_frame (s : Model α) :
    (updateKDTree s).mesh_group = s.mesh_group ∧
    (updateKDTree s).point_cloud = s.point_cloud ∧
    (updateKDTree s).transform = s.transform ∧
    (updateKDTree s).valid_vertex_kdtree = s.valid_vertex_kdtree ∧
    (updateKDTree s).vertex_kdtree = s.vertex_kdtree ∧
    (updateKDTree s).valid_pick = s.valid_pick ∧
    (updateKDTree s).picked_sample = s.picked_sample ∧
    (updateKDTree s).picked_face = s.picked_face := by
  unfold updateKDTree
  by_cases h : s.valid_kdtree = true
  · rw [if_pos h]
    exact ⟨rfl, rfl, rfl, rfl, rfl, rfl, rfl, rfl⟩
  · rw [if_neg h]
    exact ⟨rfl, rfl, rfl, rfl, rfl, rfl, rfl, rfl⟩

theorem updateKDTree_elems {s : Model α} (hsync : kdtreeSynced s) :
    (updateKDTree s).kdtree.elems = modelFaces s := by
  unfold updateKDTree
  by_cases h : s.valid_kdtree = true
  · rw [if_pos h]
    exact hsync h
  · rw [if_neg h]
    unfold modelFaces
    cases s.mesh_group with
    | none => rfl
    | some mg =>
      cases s.transform with
      | none => rfl
      | some t => rfl

theorem updateVertexKDTree_spec {s : Model α} {mg : MeshGroupData α}
    (hmg : s.mesh_group = some mg) (hsync : vertexKdtreeSynced s) :
    ∃ s1, updateVertexKDTree s = some s1 ∧
      s1.vertex_kdtree.elems = mg.verts ∧
      s1.kdtree = s.kdtree ∧ s1.valid_kdtree = s.valid_kdtree ∧
      s1.mesh_group = s.mesh_group ∧ s1.point_cloud = s.point_cloud ∧
      s1.transform = s.transform := by
  unfold updateVertexKDTree
  by_cases h : s.valid_vertex_kdtree = true
  · rw [if_pos h]
    refine ⟨s, rfl, ?_, rfl, rfl, rfl, rfl, rfl⟩
    rw [hsync h, hmg]
  · rw [if_neg h, hmg]
    cases ht : s.transform with
    | none => exact ⟨_, rfl, rfl, rfl, rfl, rfl, rfl, rfl⟩
    | some t => exact ⟨_, rfl, rfl, rfl, rfl, rfl, rfl, rfl⟩

/-- The spec-modelled kd-tree closestElement coincides with the spec's
brute-force linear scan at the same bound: both are the first minimum of
the same distance list under the same admissibility predicate. -/
theorem closestElement_eq_bruteForce {α : Type} (d : α → Pt → ℤ) (elems : List α)
    (q : Pt) (bound : ℤ) :
    KDTreeN.closestElement d elems q bound = bruteForceClosest d elems q bound :=
  isFirstMin_unique (firstMinBy_spec _ _) (bruteForceClosest_spec d elems q bound)

/-- Tightening the inclusive bound from B to dv (with dv within B,
non-negative, and dominating the distance of some element) does not
change the closestElement result relative to the brute-force scan at the
original bound B: the two-tier tightening step is conservative. -/
theorem closestElement_tightened_eq_bruteForce {α : Type} (d : α → Pt → ℤ)
    (elems : List α) (q : Pt) {B dv : ℤ}
    (hdvB : withinBound B dv = true) (hdv0 : 0 ≤ dv)
    (hwit : ∃ x ∈ elems.map (fun e => d e q), x ≤ dv) :
    KDTreeN.closestElement d elems q dv = bruteForceClosest d elems q B :=
  isFirstMin_unique (firstMinBy_spec _ _)
    (isFirstMin_tighten (bruteForceClosest_spec d elems q B) hdvB hdv0 hwit)

/-- What a successful closestElement result tells us: the index denotes
an element at the reported distance, the distance is within the bound,
and no admissible element is closer. -/
theorem closestElement_some_inv {α : Type} {d : α → Pt → ℤ} {elems : List α}
    {q : Pt} {bound : ℤ} {i : ℕ} {dv : ℤ}
    (h : KDTreeN.closestElement d elems q bound = some (i, dv)) :
    (∃ e, elems.get? i = some e ∧ d e q = dv) ∧ withinBound bound dv = true ∧
      ∀ e ∈ elems, withinBound bound (d e q) = true → dv ≤ d e q := by
  have hspec := firstMinBy_spec (elems.map fun e => d e q) (withinBound bound)
  rw [show firstMinBy (elems.map fun e => d e q) (withinBound bound)
        = KDTreeN.closestElement d elems q bound from rfl, h] at hspec
  obtain ⟨hget, hb, hle, _⟩ := hspec
  refine ⟨?_, hb, ?_⟩
  · rw [List.get?_map] at hget
    cases he : elems.get? i with
    | none =>
      rw [he] at hget
      exact Option.noConfusion hget
    | some e =>
      rw [he] at hget
      exact ⟨e, rfl, Option.some.injEq _ _ ▸ hget⟩
  · intro e he hbe
    exact hle (d e q) (List.mem_map_of_mem _ he) hbe

/-- What a valid rayStructureIntersection result tells us: the index
denotes an element whose hit time is the reported time, the time is
admissible, and no element has a smaller admissible hit time. -/
theorem rayStructureIntersection_some_inv {α : Type} {hit : α → Ray → ℤ}
    {elems : List α} {ray : Ray} {maxTime : ℤ} {i : ℕ} {t : ℤ}
    (h : KDTreeN.rayStructureIntersection hit elems ray maxTime = some (i, t)) :
    (∃ e, elems.get? i = some e ∧ hit e ray = t) ∧ hitAdmissible maxTime t = true ∧
      ∀ e ∈ elems, hitAdmissible maxTime (hit e ray) = true → t ≤ hit e ray := by
  have hspec := firstMinBy_spec (elems.map fun e => hit e ray) (hitAdmissible maxTime)
  rw [show firstMinBy (elems.map fun e => hit e ray) (hitAdmissible maxTime)
        = KDTreeN.rayStructureIntersection hit elems ray maxTime from rfl, h] at hspec
  obtain ⟨hget, hb, hle, _⟩ := hspec
  refine ⟨?_, hb, ?_⟩
  · rw [List.get?_map] at hget
    cases he : elems.get? i with
    | none =>
      rw [he] at hget
      exact Option.noConfusion hget
    | some e =>
      rw [he] at hget
      exact ⟨e, rfl, Option.some.injEq _ _ ▸ hget⟩
  · intro e he hbe
    exact hle (hit e ray) (List.mem_map_of_mem _ he) hbe

/-- An invalid rayStructureIntersection result means no element has an
admissible hit time. -/
theorem rayStructureIntersection_none_inv {α : Type} {hit : α → Ray → ℤ}
    {elems : List α} {ray : Ray} {maxTime : ℤ}
    (h : KDTreeN.rayStructureIntersection hit elems ray maxTime = none) :
    ∀ e ∈ elems, hitAdmissible maxTime (hit e ray) = false := by
  have hspec := firstMinBy_spec (elems.map fun e => hit e ray) (hitAdmissible maxTime)
  rw [show firstMinBy (elems.map fun e => hit e ray) (hitAdmissible maxTime)
        = KDTreeN.rayStructureIntersection hit elems ray maxTime from rfl, h] at hspec
  intro e he
  exact hspec (hit e ray) (List.mem_map_of_mem _ he)

end Model

/-! ### Claim theorems -/

/-- C1: for every query point and every distance bound, closestPoint with
accelerate_with_vertices = true (first querying the vertex kd-tree for
the closest anchor and, when one is found, tightening the bound passed
to the face kd-tree to that anchor distance) returns the same primitive
index as a brute-force linear scan over all primitives, with the same
(squared) distance — provided the model's anchor vertices are co-located
with primitive vertices, i.e. every collected vertex dominates the
distance of some indexed face. -/
theorem closestPoint_accelerated_matches_bruteForce {α : Type} (ops : ElemOps α)
    (s : Model α) (query : Pt) (bound : ℤ) (mg : MeshGroupData α)
    (hmg : s.mesh_group = some mg)
    (hsyncF : Model.kdtreeSynced s)
    (hsyncV : Model.vertexKdtreeSynced s)
    (htr : s.transform = none) (htrs : Model.transformsSynced s)
    (hanchors : ∀ v ∈ mg.verts, ∃ f ∈ mg.faces, ops.dist f query ≤ sqDist v query) :
    (Model.closestPoint ops s query bound true).map (fun r => (r.ret, r.min_dist)) =
      some (match bruteForceClosest ops.dist mg.faces query bound with
            | some im => (Int.ofNat im.1, some im.2)
            | none => (-1, none)) := by
  by_cases hemp : Model.isEmpty s = true
  · have hfe : mg.faces = [] := by
      unfold Model.isEmpty at hemp
      rw [hmg] at hemp
      have h1 : mg.isEmpty = true := (Bool.and_eq_true_iff.mp hemp).1
      unfold MeshGroupData.isEmpty at h1
      have h2 : mg.faces.isEmpty = true := (Bool.and_eq_true_iff.mp h1).1
      exact List.isEmpty_iff.mp h2
    have hbf : bruteForceClosest ops.dist mg.faces query bound = none := by
      rw [hfe]
      rfl
    unfold Model.closestPoint
    rw [if_pos hemp, hbf]
    rfl
  · have hemp2 : Model.isEmpty s = false := by
      cases h : Model.isEmpty s with
      | false => rfl
      | true => exact absurd h hemp
    obtain ⟨s1, hupd, helems, hkd, hvkd, hmg1, hpc1, htr1⟩ :=
      Model.updateVertexKDTree_spec hmg hsyncV
    have hsyncF1 : Model.kdtreeSynced s1 := by
      unfold Model.kdtreeSynced Model.modelFaces at hsyncF ⊢
      rw [hkd, hvkd, hmg1]
      exact hsyncF
    have hfaces2 : (Model.updateKDTree s1).kdtree.elems = mg.faces := by
      rw [Model.updateKDTree_elems hsyncF1]
      unfold Model.modelFaces
      rw [hmg1, hmg]
    unfold Model.closestPoint
    rw [if_neg (by simp [hemp2]), if_pos rfl, hupd]
    dsimp only
    rw [helems]
    cases hv : KDTreeN.closestElement sqDist mg.verts query bound with
    | some pr =>
      obtain ⟨vi, dv⟩ := pr
      obtain ⟨⟨v, hvget, hvd⟩, hvb, _⟩ := Model.closestElement_some_inv hv
      have hvmem : v ∈ mg.verts := List.get?_mem hvget
      have hdv0 : 0 ≤ dv := hvd ▸ sqDist_nonneg v query
      obtain ⟨f, hf, hfd⟩ := hanchors v hvmem
      have hwit : ∃ x ∈ mg.faces.map (fun e => ops.dist e query), x ≤ dv :=
        ⟨ops.dist f query, List.mem_map_of_mem _ hf, hvd ▸ hfd⟩
      have heq := Model.closestElement_tightened_eq_bruteForce ops.dist mg.faces
        query hvb hdv0 hwit
      dsimp only
      rw [hfaces2, heq]
      cases hbf : bruteForceClosest ops.dist mg.faces query bound with
      | some im =>
        obtain ⟨i, m⟩ := im
        cases hgf : mg.faces[i]? <;> simp [List.get?_eq_getElem?, hgf]
      | none => simp
    | none =>
      dsimp only
      rw [hfaces2, Model.closestElement_eq_bruteForce]
      cases hbf : bruteForceClosest ops.dist mg.faces query bound with
      | some im =>
        obtain ⟨i, m⟩ := im
        cases hgf : mg.faces[i]? <;> simp [List.get?_eq_getElem?, hgf]
      | none => simp

/-- C2: for every ray and every max_time, Model::rayIntersection returns
the hit with the globally minimum admissible hit time in [0, max_time]
over all primitives (not merely the first hit found), and an invalid
result when no primitive intersects within the interval.  Stated for
models whose face kd-tree, when valid, was built from the current
geometry, and with no transform overlay (the embedding works in object
space). -/
theorem rayIntersection_globally_minimum {α : Type} (ops : ElemOps α)
    (s : Model α) (ray : Ray) (maxTime : ℤ)
    (hsync : Model.kdtreeSynced s)
    (htr : s.transform = none) (htrs : Model.transformsSynced s) :
    (∀ i t, (Model.rayIntersection ops s ray maxTime).1 = some (i, t) →
       (∃ e, (Model.modelFaces s).get? i = some e ∧ ops.hitTime e ray = t) ∧
         0 ≤ t ∧ (0 ≤ maxTime → t ≤ maxTime) ∧
         (∀ e ∈ Model.modelFaces s,
            hitAdmissible maxTime (ops.hitTime e ray) = true → t ≤ ops.hitTime e ray)) ∧
    ((Model.rayIntersection ops s ray maxTime).1 = none →
       ∀ e ∈ Model.modelFaces s, hitAdmissible maxTime (ops.hitTime e ray) = false) := by
  have helems : (Model.updateKDTree s).kdtree.elems = Model.modelFaces s :=
    Model.updateKDTree_elems hsync
  constructor
  · intro i t h
    have h2 : KDTreeN.rayStructureIntersection ops.hitTime (Model.modelFaces s)
        ray maxTime = some (i, t) := by
      rw [← helems]
      exact h
    obtain ⟨he, hadm, hle⟩ := Model.rayStructureIntersection_some_inv h2
    have h0 : 0 ≤ t := of_decide_eq_true (Bool.and_eq_true_iff.mp hadm).1
    refine ⟨he, h0, ?_, hle⟩
    intro hmt
    rcases Bool.or_eq_true_iff.mp (Bool.and_eq_true_iff.mp hadm).2 with hb | hb
    · exact absurd hmt (not_le_of_lt (of_decide_eq_true hb))
    · exact of_decide_eq_true hb
  · intro h
    have h2 : KDTreeN.rayStructureIntersection ops.hitTime (Model.modelFaces s)
        ray maxTime = none := by
      rw [← helems]
      exact h
    exact Model.rayStructureIntersection_none_inv h2

/-! ### Concrete instances used by the witnesses and counterexamples -/

/-- A concrete capability bundle over bare points, instantiating the
generic development on small examples: the metric is the squared L2
distance, a ray hits a point element exactly when it starts on it, and
the closest-pair data measures the element against the ray origin. -/
def ptOps : ElemOps Pt where
  dist := sqDist
  normal := fun _ => ⟨0, 0, 1⟩
  hitTime := fun p r => if p = r.origin then 0 else -1
  cpRayPoint := fun _ r => r.origin
  cpElemPoint := fun p _ => p
  cpDist := fun p r => sqDist p r.origin

/-- Two primitives with co-located anchors. -/
def mgW : MeshGroupData Pt :=
  ⟨[⟨0, 0, 0⟩, ⟨1, 0, 0⟩], [⟨0, 0, 0⟩, ⟨1, 0, 0⟩]⟩

/-- A freshly loaded model over mgW: both kd-trees invalidated, no
transform, no pick. -/
def sW : Model Pt :=
  { mesh_group := some mgW, point_cloud := none, transform := none,
    valid_kdtree := false, kdtree := ⟨[], none⟩,
    valid_vertex_kdtree := false, vertex_kdtree := ⟨[], none⟩,
    valid_pick := false, picked_sample := ⟨0, 0, 0⟩, picked_face := -1 }

/-- Witness for C1 at a concrete model: two primitives, anchors
co-located with them, query (1/4,0,0), bound 100. -/
theorem closestPoint_accelerated_matches_bruteForce_witness :
    sW.mesh_group = some mgW ∧ Model.kdtreeSynced sW ∧ Model.vertexKdtreeSynced sW ∧
    sW.transform = none ∧ Model.transformsSynced sW ∧
    (∀ v ∈ mgW.verts, ∃ f ∈ mgW.faces,
       ptOps.dist f ⟨1, 1, 0⟩ ≤ sqDist v ⟨1, 1, 0⟩) ∧
    (Model.closestPoint ptOps sW ⟨1, 1, 0⟩ 100 true).map (fun r => (r.ret, r.min_dist)) =
      some (match bruteForceClosest ptOps.dist mgW.faces ⟨1, 1, 0⟩ 100 with
            | some im => (Int.ofNat im.1, some im.2)
            | none => (-1, none)) :=
  ⟨rfl, by decide, by decide, rfl, by decide, by decide,
   closestPoint_accelerated_matches_bruteForce ptOps sW ⟨1, 1, 0⟩ 100 mgW rfl
     (by decide) (by decide) rfl (by decide) (by decide)⟩

/-- A mesh whose only anchor vertex (the origin) lies on no primitive:
the single indexed primitive sits at (10,0,0). -/
def mgIso : MeshGroupData Pt :=
  ⟨[⟨10, 0, 0⟩], [⟨0, 0, 0⟩]⟩

/-- A freshly loaded model over mgIso. -/
def sIso : Model Pt :=
  { mesh_group := some mgIso, point_cloud := none, transform := none,
    valid_kdtree := false, kdtree := ⟨[], none⟩,
    valid_vertex_kdtree := false, vertex_kdtree := ⟨[], none⟩,
    valid_pick := false, picked_sample := ⟨0, 0, 0⟩, picked_face := -1 }

/-- Counterexample to C1 as stated: with an anchor vertex on no
primitive, querying the origin with the finite bound 200 makes the
vertex query tighten the bound to 0, the face kd-tree then finds
nothing, and closestPoint answers -1 — while the brute-force linear scan
over all primitives returns primitive 0 at squared distance 100. -/
theorem closestPoint_accelerated_cex :
    (Model.closestPoint ptOps sIso ⟨0, 0, 0⟩ 200 true).map (fun r => (r.ret, r.min_dist)) =
        some (-1, none) ∧
      bruteForceClosest ptOps.dist mgIso.faces ⟨0, 0, 0⟩ 200 = some (0, 100) := by
  decide

/-- An empty model (no mesh group, no point cloud) whose face kd-tree
has been invalidated. -/
def sEmptyInvalid : Model Pt :=
  { mesh_group := none, point_cloud := none, transform := none,
    valid_kdtree := false, kdtree := ⟨[], none⟩,
    valid_vertex_kdtree := false, vertex_kdtree := ⟨[], none⟩,
    valid_pick := false, picked_sample := ⟨0, 0, 0⟩, picked_face := -1 }

/-- A ray starting on the first primitive of mgW. -/
def rayW : Ray :=
  ⟨⟨0, 0, 0⟩, ⟨1, 0, 0⟩⟩

/-- Witness for C2: on sW, the ray rayW hits primitive 0 at time 0, and
that is the global minimum admissible hit time. -/
theorem rayIntersection_globally_minimum_witness :
    Model.kdtreeSynced sW ∧ sW.transform = none ∧ Model.transformsSynced sW ∧
    (Model.rayIntersection ptOps sW rayW 5).1 = some (0, 0) ∧
    ((∃ e, (Model.modelFaces sW).get? 0 = some e ∧ ptOps.hitTime e rayW = 0) ∧
      (0 : ℤ) ≤ 0 ∧ ((0 : ℤ) ≤ 5 → (0 : ℤ) ≤ 5) ∧
      (∀ e ∈ Model.modelFaces sW,
         hitAdmissible 5 (ptOps.hitTime e rayW) = true → (0 : ℤ) ≤ ptOps.hitTime e rayW)) :=
  ⟨by decide, rfl, by decide, by decide,
   (rayIntersection_globally_minimum ptOps sW rayW 5 (by decide) rfl (by decide)).1
     0 0 (by decide)⟩

/-- C3 (amended): the three ray query entry points always consult the
validity flag and leave the model in the rebuilt state updateKDTree s;
rebuilding a valid tree is the identity (no rebuild when the flag is
already set); invalidation is idempotent, so repeated invalidations
coalesce into the single rebuild performed by the next query; and
closestPoint behaves the same way on non-empty models — but on an empty
model it answers the sentinel without consulting or rebuilding the
index (the exception to the claim as stated). -/
theorem lazy_rebuild_coalesced {α : Type} (ops : ElemOps α) (s : Model α)
    (ray : Ray) (maxTime : ℤ) (query : Pt) (bound : ℤ) (acc : Bool) :
    ((Model.rayIntersects ops s ray maxTime).2 = Model.updateKDTree s) ∧
    ((Model.rayIntersectionTime ops s ray maxTime).2 = Model.updateKDTree s) ∧
    ((Model.rayIntersection ops s ray maxTime).2 = Model.updateKDTree s) ∧
    ((Model.updateKDTree s).valid_kdtree = true) ∧
    (s.valid_kdtree = true → Model.updateKDTree s = s) ∧
    (Model.invalidateKDTree (Model.invalidateKDTree s) = Model.invalidateKDTree s) ∧
    (Model.isEmpty s = false →
       ∃ out, Model.closestPoint ops s query bound false = some out ∧
         out.state = Model.updateKDTree s) ∧
    (Model.isEmpty s = true →
       Model.closestPoint ops s query bound acc = some ⟨-1, none, none, s⟩) := by
  refine ⟨rfl, rfl, rfl, Model.updateKDTree_valid s, Model.updateKDTree_of_valid, rfl,
    ?_, ?_⟩
  · intro hemp
    unfold Model.closestPoint
    rw [if_neg (by simp [hemp])]
    dsimp only
    rw [if_neg Bool.false_ne_true]
    dsimp only
    cases hq : KDTreeN.closestElement ops.dist (Model.updateKDTree s).kdtree.elems
        query bound with
    | some pr =>
      obtain ⟨i, d⟩ := pr
      dsimp only
      cases hg : (Model.updateKDTree s).kdtree.elems.get? i with
      | some e => exact ⟨_, rfl, rfl⟩
      | none => exact ⟨_, rfl, rfl⟩
    | none =>
      dsimp only
      exact ⟨_, rfl, rfl⟩
  · intro hemp
    unfold Model.closestPoint
    rw [if_pos hemp]

/-- Counterexample to C3 as stated: on an empty model whose face kd-tree
flag is false, closestPoint answers -1 without rebuilding — the flag is
still false after the method has answered. -/
theorem lazy_rebuild_cex :
    sEmptyInvalid.valid_kdtree = false ∧
    (Model.closestPoint ptOps sEmptyInvalid ⟨0, 0, 0⟩ 5 false).map
        (fun r => (r.ret, r.state.valid_kdtree)) = some (-1, false) := by
  decide

/-- Witness for C3 (amended) on the non-empty model sW: closestPoint
leaves the model in exactly the rebuilt state. -/
theorem lazy_rebuild_coalesced_witness :
    Model.isEmpty sW = false ∧
    (∃ out, Model.closestPoint ptOps sW ⟨0, 0, 0⟩ 5 false = some out ∧
       out.state = Model.updateKDTree sW) :=
  ⟨by decide,
   (lazy_rebuild_coalesced ptOps sW rayW 5 ⟨0, 0, 0⟩ 5 false).2.2.2.2.2.2.1 (by decide)⟩

/-- C4: a query against an empty model is not an error: closestPoint
returns the sentinel -1 for every query point, distance bound and
acceleration setting, leaves both output parameters unwritten, and
leaves the model state untouched. -/
theorem closestPoint_empty_returns_none {α : Type} (ops : ElemOps α)
    (s : Model α) (query : Pt) (bound : ℤ) (acc : Bool)
    (hemp : Model.isEmpty s = true) :
    Model.closestPoint ops s query bound acc = some ⟨-1, none, none, s⟩ := by
  unfold Model.closestPoint
  rw [if_pos hemp]

/-- Witness for C4 at an empty model with the acceleration flag set. -/
theorem closestPoint_empty_returns_none_witness :
    Model.isEmpty sEmptyInvalid = true ∧
    Model.closestPoint ptOps sEmptyInvalid ⟨1, 2, 3⟩ 7 true =
      some ⟨-1, none, none, sEmptyInvalid⟩ :=
  ⟨by decide, closestPoint_empty_returns_none ptOps sEmptyInvalid ⟨1, 2, 3⟩ 7 true (by decide)⟩

/-- C5: pick consults the closest-pair fallback only when the exact
ray-structure intersection is invalid; on a valid intersection it
returns that intersection's hit time, records its element index and the
hit point, sets valid_pick, and never consults closestPair.  When the
intersection is invalid the fallback is consulted, with onlyIfNoHit
passed as true (third conjunct: the result is the one obtained from
closestPair with onlyIfNoHit = true). -/
theorem pick_closestPair_only_on_miss {α : Type} (ops : ElemOps α)
    (s : Model α) (ray : Ray) :
    (∀ i t, KDTreeN.rayStructureIntersection ops.hitTime
        (Model.updateKDTree s).kdtree.elems ray (-1) = some (i, t) →
       Model.pick ops s ray =
         ⟨t, false,
          { Model.updateKDTree s with
            picked_sample := ray.getPoint t,
            picked_face := Int.ofNat i, valid_pick := true }⟩) ∧
    (KDTreeN.rayStructureIntersection ops.hitTime
        (Model.updateKDTree s).kdtree.elems ray (-1) = none →
       (Model.pick ops s ray).consulted_closest_pair = true) ∧
    (KDTreeN.rayStructureIntersection ops.hitTime
        (Model.updateKDTree s).kdtree.elems ray (-1) = none →
     KDTreeN.closestPair ops (Model.updateKDTree s).kdtree.elems ray (-1) true = none →
       Model.pick ops s ray = ⟨-1, true, Model.updateKDTree s⟩) := by
  refine ⟨?_, ?_, ?_⟩
  · intro i t h
    unfold Model.pick
    dsimp only
    rw [h]
  · intro h
    unfold Model.pick
    dsimp only
    rw [h]
    cases hcp : KDTreeN.closestPair ops (Model.updateKDTree s).kdtree.elems ray (-1) true with
    | some cp =>
      dsimp only
      by_cases hp : 0 ≤ projAlong ray.origin cp.queryPoint ray.dir
      · rw [if_pos hp]
      · rw [if_neg hp]
    | none => rfl
  · intro h hcp
    unfold Model.pick
    dsimp only
    rw [h, hcp]

/-- Witness for C5: on sW the ray rayW hits primitive 0 at time 0 and
pick records exactly that hit without consulting the fallback. -/
theorem pick_closestPair_only_on_miss_witness :
    KDTreeN.rayStructureIntersection ptOps.hitTime
        (Model.updateKDTree sW).kdtree.elems rayW (-1) = some (0, 0) ∧
    Model.pick ptOps sW rayW =
      ⟨0, false,
       { Model.updateKDTree sW with
         picked_sample := rayW.getPoint 0,
         picked_face := Int.ofNat 0, valid_pick := true }⟩ :=
  ⟨by decide, (pick_closestPair_only_on_miss ptOps sW rayW).1 0 0 (by decide)⟩

/-- C6: setTransform and clearTransform change only the stored
transforms: both validity flags, both kd-trees' element contents, the
geometry and the pick state stay exactly as they were — no invalidation
and no rebuild is triggered by setting or clearing a transform. -/
theorem setClearTransform_frame {α : Type} (s : Model α) (t : AffineTransform) :
    (Model.setTransform s t).valid_kdtree = s.valid_kdtree ∧
    (Model.setTransform s t).valid_vertex_kdtree = s.valid_vertex_kdtree ∧
    (Model.setTransform s t).kdtree.elems = s.kdtree.elems ∧
    (Model.setTransform s t).vertex_kdtree.elems = s.vertex_kdtree.elems ∧
    (Model.setTransform s t).mesh_group = s.mesh_group ∧
    (Model.setTransform s t).point_cloud = s.point_cloud ∧
    (Model.setTransform s t).valid_pick = s.valid_pick ∧
    (Model.setTransform s t).transform = some t ∧
    (Model.clearTransform s).valid_kdtree = s.valid_kdtree ∧
    (Model.clearTransform s).valid_vertex_kdtree = s.valid_vertex_kdtree ∧
    (Model.clearTransform s).kdtree.elems = s.kdtree.elems ∧
    (Model.clearTransform s).vertex_kdtree.elems = s.vertex_kdtree.elems ∧
    (Model.clearTransform s).mesh_group = s.mesh_group ∧
    (Model.clearTransform s).point_cloud = s.point_cloud ∧
    (Model.clearTransform s).valid_pick = s.valid_pick ∧
    (Model.clearTransform s).transform = none := by
  unfold Model.setTransform Model.clearTransform
  by_cases h1 : s.valid_kdtree = true <;> by_cases h2 : s.valid_vertex_kdtree = true <;>
    simp [h1, h2]

/-- C7: setTransform followed by clearTransform restores the model state
exactly, on any state with no transform set whose valid kd-trees store
none (the state of a model on which no transform was ever set); hence
every subsequent query — closestPoint and rayIntersection included —
returns what it would have returned with no transform ever set. -/
theorem transform_roundtrip {α : Type} (s : Model α) (t : AffineTransform)
    (htr : s.transform = none)
    (hk : s.valid_kdtree = true → s.kdtree.trans = none)
    (hv : s.valid_vertex_kdtree = true → s.vertex_kdtree.trans = none) :
    Model.clearTransform (Model.setTransform s t) = s ∧
    (∀ (ops : ElemOps α) (query : Pt) (bound : ℤ) (acc : Bool),
       Model.closestPoint ops (Model.clearTransform (Model.setTransform s t))
           query bound acc = Model.closestPoint ops s query bound acc) ∧
    (∀ (ops : ElemOps α) (ray : Ray) (maxTime : ℤ),
       Model.rayIntersection ops (Model.clearTransform (Model.setTransform s t))
           ray maxTime = Model.rayIntersection ops s ray maxTime) := by
  have hmain : Model.clearTransform (Model.setTransform s t) = s := by
    obtain ⟨mgr, pc, tr, vk, ⟨ke, kt⟩, vv, ⟨ve, vt⟩, vp, ps, pf⟩ := s
    simp only at htr hk hv
    subst htr
    unfold Model.setTransform Model.clearTransform
    cases vk <;> cases vv <;> simp_all
  refine ⟨hmain, ?_, ?_⟩
  · intro ops query bound acc
    rw [hmain]
  · intro ops ray maxTime
    rw [hmain]

/-- Witness for C7 at the concrete model sW and a concrete transform. -/
def T0 : AffineTransform :=
  ⟨1, 0, 0, 0, 1, 0, 0, 0, 1, 5, 0, 0⟩

theorem transform_roundtrip_witness :
    sW.transform = none ∧
    Model.clearTransform (Model.setTransform sW T0) = sW :=
  ⟨rfl, (transform_roundtrip sW T0 rfl (by decide) (by decide)).1⟩

/-- C8: a non-null mesh_group is an unstated precondition of the
vertex-accelerated query path: updateVertexKDTree dereferences
mesh_group unconditionally (unlike updateKDTree, which guards with a
null check), so a non-empty model whose only geometry is a point cloud
reaches the null dereference (modelled as none) through closestPoint
with accelerate_with_vertices = true and a stale vertex kd-tree; under
the precondition mesh_group ≠ none the accelerated path is safe, and
the unaccelerated path is always safe. -/
theorem closestPoint_accelerated_null_deref {α : Type} (ops : ElemOps α)
    (s : Model α) (query : Pt) (bound : ℤ) :
    (s.mesh_group = none → s.valid_vertex_kdtree = false → Model.isEmpty s = false →
       Model.closestPoint ops s query bound true = none) ∧
    (s.mesh_group ≠ none → Model.closestPoint ops s query bound true ≠ none) ∧
    (Model.closestPoint ops s query bound false ≠ none) := by
  refine ⟨?_, ?_, ?_⟩
  · intro hmg hvv hemp
    unfold Model.closestPoint
    rw [if_neg (by simp [hemp])]
    dsimp only
    rw [if_pos rfl]
    unfold Model.updateVertexKDTree
    rw [if_neg (by simp [hvv]), hmg]
  · intro hmg
    by_cases hemp : Model.isEmpty s = true
    · unfold Model.closestPoint
      rw [if_pos hemp]
      exact Option.noConfusion
    · unfold Model.closestPoint
      rw [if_neg hemp]
      dsimp only
      rw [if_pos rfl]
      cases hmg2 : s.mesh_group with
      | none => exact absurd hmg2 hmg
      | some mg =>
        have hsome : ∃ s1, Model.updateVertexKDTree s = some s1 := by
          unfold Model.updateVertexKDTree
          by_cases hvv : s.valid_vertex_kdtree = true
          · rw [if_pos hvv]
            exact ⟨s, rfl⟩
          · rw [if_neg hvv, hmg2]
            cases s.transform <;> exact ⟨_, rfl⟩
        obtain ⟨s1, hs1⟩ := hsome
        rw [hs1]
        dsimp only
        cases KDTreeN.closestElement sqDist s1.vertex_kdtree.elems query bound with
        | some pr =>
          obtain ⟨vi, dv⟩ := pr
          dsimp only
          cases KDTreeN.closestElement ops.dist (Model.updateKDTree s1).kdtree.elems
              query dv with
          | some pr2 =>
            obtain ⟨i, d⟩ := pr2
            dsimp only
            cases (Model.updateKDTree s1).kdtree.elems.get? i <;> exact Option.noConfusion
          | none => exact Option.noConfusion
        | none =>
          dsimp only
          cases KDTreeN.closestElement ops.dist (Model.updateKDTree s1).kdtree.elems
              query bound with
          | some pr2 =>
            obtain ⟨i, d⟩ := pr2
            dsimp only
            cases (Model.updateKDTree s1).kdtree.elems.get? i <;> exact Option.noConfusion
          | none => exact Option.noConfusion
  · by_cases hemp : Model.isEmpty s = true
    · unfold Model.closestPoint
      rw [if_pos hemp]
      exact Option.noConfusion
    · unfold Model.closestPoint
      rw [if_neg hemp]
      dsimp only
      rw [if_neg Bool.false_ne_true]
      dsimp only
      cases KDTreeN.closestElement ops.dist (Model.updateKDTree s).kdtree.elems
          query bound with
      | some pr =>
        obtain ⟨i, d⟩ := pr
        dsimp only
        cases (Model.updateKDTree s).kdtree.elems.get? i <;> exact Option.noConfusion
      | none => exact Option.noConfusion

/-- A non-empty model whose only geometry is a point cloud: mesh_group
is null and the vertex kd-tree is stale (the state right after loading a
.pts file, which invalidates both trees). -/
def sPC : Model Pt :=
  { mesh_group := none, point_cloud := some ⟨[⟨0, 0, 0⟩]⟩, transform := none,
    valid_kdtree := false, kdtree := ⟨[], none⟩,
    valid_vertex_kdtree := false, vertex_kdtree := ⟨[], none⟩,
    valid_pick := false, picked_sample := ⟨0, 0, 0⟩, picked_face := -1 }

/-- Witness for C8 at the point-cloud-only model sPC. -/
theorem closestPoint_accelerated_null_deref_witness :
    sPC.mesh_group = none ∧ sPC.valid_vertex_kdtree = false ∧
    Model.isEmpty sPC = false ∧
    Model.closestPoint ptOps sPC ⟨0, 0, 0⟩ 5 true = none :=
  ⟨rfl, rfl, by decide,
   (closestPoint_accelerated_null_deref ptOps sPC ⟨0, 0, 0⟩ 5).1 rfl rfl (by decide)⟩

/-- A model over mgW with both kd-trees valid, built from the current
geometry, and no transform anywhere. -/
def sWv : Model Pt :=
  { mesh_group := some mgW, point_cloud := none, transform := none,
    valid_kdtree := true, kdtree := ⟨mgW.faces, none⟩,
    valid_vertex_kdtree := true, vertex_kdtree := ⟨mgW.verts, none⟩,
    valid_pick := false, picked_sample := ⟨0, 0, 0⟩, picked_face := -1 }

/-- The state reached from sWv by setTransform T0, invalidating both
trees, then clearTransform: the model's transform is gone, but both
stale trees still store T0. -/
def sStale : Model Pt :=
  { mesh_group := some mgW, point_cloud := none, transform := none,
    valid_kdtree := false, kdtree := ⟨mgW.faces, some T0⟩,
    valid_vertex_kdtree := false, vertex_kdtree := ⟨mgW.verts, some T0⟩,
    valid_pick := false, picked_sample := ⟨0, 0, 0⟩, picked_face := -1 }

/-- Counterexample to C9 as stated: sStale is reachable (setTransform;
invalidate both trees; clearTransform — the clear does not reach the
trees because their flags are down) and satisfies the invariant
(both flags are false); yet updateKDTree — a rebuild with no model
transform to re-apply — marks the face tree valid while it still stores
the stale transform T0, so the invariant does not survive the rebuild:
updateKDTree does not re-apply (or reset) the transform when the model
has none. -/
theorem transformsSynced_cex :
    sStale = Model.clearTransform (Model.invalidateKDTree
      (Model.invalidateVertexKDTree (Model.setTransform sWv T0))) ∧
    Model.transformsSynced sStale ∧
    ¬ Model.transformsSynced (Model.updateKDTree sStale) := by
  refine ⟨by decide, by decide, ?_⟩
  intro h
  have h1 := h.1 (by decide)
  revert h1
  decide

/-- C9 (amended): the transform-sync invariant (a valid tree stores the
model's current transform) is preserved by setTransform, clearTransform
and both invalidations; a rebuild preserves it when the model has a
transform to re-apply (and, for the face tree, a mesh group, since its
re-apply sits inside the mesh-group branch) or when the tree's stored
transform already coincides with the model's — without that condition a
rebuild can leave a stale transform behind. -/
theorem updateKDTree_trans_invalid {α : Type} {s : Model α}
    (h : s.valid_kdtree = false) :
    (Model.updateKDTree s).kdtree.trans =
      (match s.mesh_group, s.transform with
       | some _, some t => some t
       | _, _ => s.kdtree.trans) := by
  unfold Model.updateKDTree
  rw [if_neg (by simp [h])]
  cases s.mesh_group <;> cases s.transform <;> rfl

theorem transformsSynced_preserved {α : Type} (s : Model α) (t : AffineTransform) :
    (Model.transformsSynced s → Model.transformsSynced (Model.setTransform s t)) ∧
    (Model.transformsSynced s → Model.transformsSynced (Model.clearTransform s)) ∧
    (Model.transformsSynced s → Model.transformsSynced (Model.invalidateKDTree s)) ∧
    (Model.transformsSynced s → Model.transformsSynced (Model.invalidateVertexKDTree s)) ∧
    (Model.transformsSynced s →
       ((s.transform ≠ none ∧ s.mesh_group ≠ none) ∨ s.kdtree.trans = s.transform) →
       Model.transformsSynced (Model.updateKDTree s)) ∧
    (∀ s1, Model.updateVertexKDTree s = some s1 → Model.transformsSynced s →
       (s.transform ≠ none ∨ s.vertex_kdtree.trans = s.transform) →
       Model.transformsSynced s1) := by
  refine ⟨?_, ?_, ?_, ?_, ?_, ?_⟩
  · intro _
    unfold Model.setTransform Model.transformsSynced
    by_cases h1 : s.valid_kdtree = true <;> by_cases h2 : s.valid_vertex_kdtree = true <;>
      simp [h1, h2]
  · intro hs
    unfold Model.clearTransform Model.transformsSynced
    by_cases h1 : s.valid_kdtree = true <;> by_cases h2 : s.valid_vertex_kdtree = true <;>
      simp [h1, h2]
  · intro hs
    unfold Model.invalidateKDTree Model.transformsSynced
    exact ⟨by simp, fun hv => hs.2 hv⟩
  · intro hs
    unfold Model.invalidateVertexKDTree Model.transformsSynced
    exact ⟨fun hv => hs.1 hv, by simp⟩
  · intro hs hcond
    by_cases h1 : s.valid_kdtree = true
    · rw [Model.updateKDTree_of_valid h1]
      exact hs
    · have h1f : s.valid_kdtree = false := by
        cases hb : s.valid_kdtree with
        | false => rfl
        | true => exact absurd hb h1
      have hframe := Model.updateKDTree_frame s
      constructor
      · intro _
        rw [updateKDTree_trans_invalid h1f, hframe.2.2.1]
        cases hmg : s.mesh_group with
        | none =>
          dsimp only
          rcases hcond with ⟨_, hne⟩ | hceq
          · exact absurd hmg hne
          · exact hceq
        | some mg =>
          cases htr : s.transform with
          | none =>
            dsimp only
            rcases hcond with ⟨hne, _⟩ | hceq
            · exact absurd htr hne
            · rw [hceq, htr]
          | some t1 => rfl
      · intro hv
        rw [hframe.2.2.2.2.1, hframe.2.2.1]
        refine hs.2 ?_
        rw [← hframe.2.2.2.1]
        exact hv
  · intro s1 hupd hs hcond
    by_cases h1 : s.valid_vertex_kdtree = true
    · have heq : Model.updateVertexKDTree s = some s := by
        unfold Model.updateVertexKDTree
        rw [if_pos h1]
      rw [heq] at hupd
      obtain rfl : s = s1 := by injection hupd
      exact hs
    · unfold Model.updateVertexKDTree at hupd
      rw [if_neg h1] at hupd
      cases hmg : s.mesh_group with
      | none =>
        rw [hmg] at hupd
        exact Option.noConfusion hupd
      | some mg =>
        rw [hmg] at hupd
        cases htr : s.transform with
        | none =>
          rw [htr] at hupd
          obtain rfl : _ = s1 := by injection hupd
          refine ⟨fun hv => htr ▸ hs.1 hv, ?_⟩
          intro _
          show s.vertex_kdtree.trans = none
          rcases hcond with hne | hceq
          · exact absurd htr hne
          · rw [hceq, htr]
        | some t1 =>
          rw [htr] at hupd
          obtain rfl : _ = s1 := by injection hupd
          exact ⟨fun hv => htr ▸ hs.1 hv, fun _ => rfl⟩

/-- Witness for C9 (amended) at the concrete model sWv: setTransform
preserves the invariant, and a rebuild after invalidation preserves it
when the tree's stored transform matches the model's. -/
theorem transformsSynced_preserved_witness :
    Model.transformsSynced sWv ∧
    Model.transformsSynced (Model.setTransform sWv T0) ∧
    Model.transformsSynced (Model.updateKDTree (Model.invalidateKDTree sWv)) :=
  ⟨by decide, (transformsSynced_preserved sWv T0).1 (by decide),
   (transformsSynced_preserved (Model.invalidateKDTree sWv) T0).2.2.2.2.1 (by decide)
     (Or.inr (by decide))⟩

/-- C10: when pick finds no primitive — the exact intersection is
invalid and the closest-pair fallback yields no pair with a non-negative
projection onto the ray — it returns a negative time and leaves
valid_pick, picked_sample and picked_face unchanged, so a previously
recorded pick stays valid; pick never resets valid_pick, and only
invalidatePick clears it. -/
theorem pick_miss_preserves_pick {α : Type} (ops : ElemOps α) (s : Model α)
    (ray : Ray) :
    (s.valid_pick = true → (Model.pick ops s ray).state.valid_pick = true) ∧
    (KDTreeN.rayStructureIntersection ops.hitTime
        (Model.updateKDTree s).kdtree.elems ray (-1) = none →
     (∀ cp, KDTreeN.closestPair ops (Model.updateKDTree s).kdtree.elems ray (-1) true
         = some cp → projAlong ray.origin cp.queryPoint ray.dir < 0) →
       (Model.pick ops s ray).t < 0 ∧
       (Model.pick ops s ray).state.valid_pick = s.valid_pick ∧
       (Model.pick ops s ray).state.picked_sample = s.picked_sample ∧
       (Model.pick ops s ray).state.picked_face = s.picked_face) ∧
    ((Model.invalidatePick s).valid_pick = false) := by
  have hframe := Model.updateKDTree_frame s
  refine ⟨?_, ?_, rfl⟩
  · intro hvp
    unfold Model.pick
    dsimp only
    cases KDTreeN.rayStructureIntersection ops.hitTime
        (Model.updateKDTree s).kdtree.elems ray (-1) with
    | some pr =>
      obtain ⟨i, t⟩ := pr
      exact rfl
    | none =>
      cases KDTreeN.closestPair ops (Model.updateKDTree s).kdtree.elems ray (-1) true with
      | some cp =>
        dsimp only
        by_cases hp : 0 ≤ projAlong ray.origin cp.queryPoint ray.dir
        · rw [if_pos hp]
        · rw [if_neg hp]
          dsimp only
          rw [hframe.2.2.2.2.2.1]
          exact hvp
      | none =>
        dsimp only
        rw [hframe.2.2.2.2.2.1]
        exact hvp
  · intro hisec hcp
    unfold Model.pick
    dsimp only
    rw [hisec]
    cases hcps : KDTreeN.closestPair ops (Model.updateKDTree s).kdtree.elems ray (-1) true with
    | some cp =>
      dsimp only
      have hneg := hcp cp hcps
      rw [if_neg (not_le_of_lt hneg)]
      exact ⟨hneg, hframe.2.2.2.2.2.1, hframe.2.2.2.2.2.2.1, hframe.2.2.2.2.2.2.2⟩
    | none =>
      dsimp only
      refine ⟨by decide, hframe.2.2.2.2.2.1, hframe.2.2.2.2.2.2.1, hframe.2.2.2.2.2.2.2⟩

/-- Witness for C10: on the empty model the ray misses everything and
the fallback finds nothing; pick returns -1 and the pick record is
untouched. -/
theorem pick_miss_preserves_pick_witness :
    KDTreeN.rayStructureIntersection ptOps.hitTime
        (Model.updateKDTree sEmptyInvalid).kdtree.elems rayW (-1) = none ∧
    ((Model.pick ptOps sEmptyInvalid rayW).t < 0 ∧
     (Model.pick ptOps sEmptyInvalid rayW).state.valid_pick = sEmptyInvalid.valid_pick ∧
     (Model.pick ptOps sEmptyInvalid rayW).state.picked_sample = sEmptyInvalid.picked_sample ∧
     (Model.pick ptOps sEmptyInvalid rayW).state.picked_face = sEmptyInvalid.picked_face) :=
  ⟨by decide,
   (pick_miss_preserves_pick ptOps sEmptyInvalid rayW).2.1 (by decide)
     (fun cp h => Option.noConfusion h)⟩

end Browse3D
